import Mathlib

/-!
Verification of the record-saving helper developed in the notebook
(index-checkpoint.ipynb): the functions values, keys and save operating
on an object that carries a table name, a declared column list and a
dynamic attribute dictionary.

The notebook defines keys twice: an intermediate version that joins the
selected column names with a comma into a display string (cell with the
recorded output given below), and a final summary version that returns the
plain list of selected names.  Both are embedded here, as keysJoin and
keys respectively; save is embedded as the final summary cell writes it,
with the Python f-string interpolation of the list spelled out via the
textual form Python gives a list of strings.
-/

namespace SetupOrm

/-- Model of a mapped object: the table field embeds the class attribute
holding the table name, columns embeds the declared column list, and
attrs embeds the instance attribute dictionary (an insertion-ordered
association list, as a Python dict is). -/
structure Obj (α : Type) where
  table : String
  columns : List String
  attrs : List (String × α)
deriving Repr

/-- Membership test of a key in the attribute dictionary: embeds the
Python test attr in obj_attrs.keys(). -/
def dictContains {α : Type} : List (String × α) → String → Bool
  | [], _ => false
  | p :: rest, k => p.1 == k || dictContains rest k

/-- Lookup of a key in the attribute dictionary: embeds the Python
indexing obj_attrs[attr] (first matching entry; a dict has unique keys). -/
def dictGet {α : Type} : List (String × α) → String → Option α
  | [], _ => none
  | p :: rest, k => if p.1 == k then some p.2 else dictGet rest k

/-- Removal of the entry of one key from the attribute dictionary:
embeds deleting (or never setting) that attribute on the instance. -/
def removeAttr {α : Type} : List (String × α) → String → List (String × α)
  | [], _ => []
  | p :: rest, k => if p.1 == k then removeAttr rest k else p :: removeAttr rest k

/-- Embeds values(obj): the list comprehension
[obj_attrs[attr] for attr in obj.columns if attr in obj_attrs.keys()].
The guard of the comprehension is the if; the indexing is the lookup. -/
def values {α : Type} (o : Obj α) : List α :=
  o.columns.filterMap (fun attr =>
    if dictContains o.attrs attr then dictGet o.attrs attr else none)

/-- Embeds the final summary definition of keys(obj) (notebook lines
643-645): [attr for attr in obj.columns if attr in obj_attrs.keys()],
returning the list of selected column names. -/
def keys {α : Type} (o : Obj α) : List String :=
  o.columns.filter (fun attr => dictContains o.attrs attr)

/-- Embeds the intermediate definition of keys(obj) (notebook lines
464-467), which joins the selected names with a comma into one display
string. -/
def keysJoin {α : Type} (o : Obj α) : String :=
  String.intercalate (", ") (o.columns.filter (fun attr => dictContains o.attrs attr))

/-- Textual form Python gives one string inside a list display: the
string between two single-quote characters.  The column names used here
contain no quote or escape, for which this form is exact. -/
def pyReprStr (s : String) : String :=
  ("\x27") ++ s ++ ("\x27")

/-- Textual form Python gives a list of strings when it is interpolated
into an f-string: the bracketed, comma-separated element forms. -/
def pyStrOfList (l : List String) : String :=
  ("[") ++ String.intercalate (", ") (l.map pyReprStr) ++ ("]")

/-- Embeds s_str from save: the join of len(values(obj)) copies of the
placeholder. -/
def s_str {α : Type} (o : Obj α) : String :=
  String.intercalate (", ") (List.replicate ((values o).length) ("%s"))

/-- Embeds insert_str from the final summary save (notebook lines
647-651): the f-string interpolates obj table, keys(obj) and s_str; with
the final keys returning a list, the interpolation of keys(obj) is the
textual form of that list. -/
def insert_str {α : Type} (o : Obj α) : String :=
  ("INSERT INTO ") ++ o.table ++ (" (") ++ pyStrOfList (keys o) ++ (") VALUES (")
    ++ s_str o ++ (");")

/-- Statement text save builds when composed with the intermediate keys
(the pipeline the notebook prose develops, where keys(obj) is already the
comma-joined display string). -/
def insert_str_joined {α : Type} (o : Obj α) : String :=
  ("INSERT INTO ") ++ o.table ++ (" (") ++ keysJoin o ++ (") VALUES (")
    ++ s_str o ++ (");")

/-- Observable calls save makes on the externally owned connection and
cursor. -/
inductive DBAction (α : Type) where
  | execute (stmt : String) (params : List α)
  | commit
  | rollback
deriving Repr, DecidableEq

/-- Tests whether an action is a cursor execute call. -/
def isExec {α : Type} : DBAction α → Bool
  | DBAction.execute _ _ => true
  | _ => false

/-- Tests whether an action is a rollback call. -/
def isRollback {α : Type} : DBAction α → Bool
  | DBAction.rollback => true
  | _ => false

/-- Embeds save(obj, conn, cursor) on the path where the driver raises
nothing: one cursor.execute of the built statement with the values bound
positionally, then one conn.commit. -/
def save {α : Type} (o : Obj α) : List (DBAction α) :=
  [DBAction.execute (insert_str o) (values o), DBAction.commit]

/-- Embeds save together with the control flow around the driver call:
when cursor.execute raises, the exception propagates out of save before
conn.commit runs, unmodified; otherwise the commit follows. -/
def saveWith {α ε : Type} (o : Obj α) (execResult : Except ε Unit) :
    List (DBAction α) × Except ε Unit :=
  match execResult with
  | Except.error e => ([DBAction.execute (insert_str o) (values o)], Except.error e)
  | Except.ok _ => ([DBAction.execute (insert_str o) (values o), DBAction.commit], Except.ok ())

/-- Calling save twice in a row with the same unchanged object. -/
def saveTwice {α : Type} (o : Obj α) : List (DBAction α) :=
  save o ++ save o

/-- The worked example of the notebook: the User class with table users
and columns id, name, birthday, and the instance on which only name and
birthday are set. -/
def user : Obj String :=
  { table := ("users"), columns := [("id"), ("name"), ("birthday")],
    attrs := [(("name"), ("bob")), (("birthday"), ("3/5/1997"))] }

/-- An instance on which every declared column is set. -/
def fullUser : Obj String :=
  { table := ("users"), columns := [("id"), ("name"), ("birthday")],
    attrs := [(("id"), ("1")), (("name"), ("bob")), (("birthday"), ("3/5/1997"))] }

/-- A freshly constructed instance with no attributes set. -/
def emptyUser : Obj String :=
  { table := ("users"), columns := [("id"), ("name"), ("birthday")], attrs := [] }

/-- The worked example with a different table name but the same columns
and attributes. -/
def userRenamed : Obj String :=
  { table := ("people"), columns := [("id"), ("name"), ("birthday")],
    attrs := [(("name"), ("bob")), (("birthday"), ("3/5/1997"))] }

/-- Membership in the dictionary coincides with the lookup finding an
entry. -/
lemma dictContains_eq_isSome {α : Type} (d : List (String × α)) (k : String) :
    dictContains d k = (dictGet d k).isSome := by
  induction d with
  | nil => rfl
  | cons p rest ih =>
      by_cases h : p.1 == k <;> simp [dictContains, dictGet, h, ih]

/-- The values output is the selected keys mapped through the dictionary
lookup: the two comprehensions share their guard, so their outputs are
aligned position by position. -/
lemma values_eq_filterMap_keys {α : Type} (o : Obj α) :
    values o = (keys o).filterMap (dictGet o.attrs) := by
  unfold values keys
  induction o.columns with
  | nil => rfl
  | cons a l ih =>
      by_cases h : dictContains o.attrs a
      · have hs : (dictGet o.attrs a).isSome := by
          rw [← dictContains_eq_isSome]; exact h
        obtain ⟨v, hv⟩ := Option.isSome_iff_exists.mp hs
        simp [List.filterMap_cons, List.filter_cons, h, hv, ih]
      · simp [List.filterMap_cons, List.filter_cons, h, ih]

/-- A filterMap whose function succeeds on every element of the list
keeps the length of the list. -/
lemma length_filterMap_of_isSome {β γ : Type} (f : β → Option γ) :
    ∀ l : List β, (∀ a ∈ l, (f a).isSome) → (l.filterMap f).length = l.length := by
  intro l
  induction l with
  | nil => intro _; rfl
  | cons a l ih =>
      intro h
      obtain ⟨v, hv⟩ := Option.isSome_iff_exists.mp (h a (List.mem_cons_self a l))
      have := ih (fun b hb => h b (List.mem_cons_of_mem a hb))
      simp [List.filterMap_cons, hv, this]

/-- Every name in the keys output is a declared column that the
dictionary contains. -/
lemma mem_keys_iff {α : Type} (o : Obj α) (a : String) :
    a ∈ keys o ↔ a ∈ o.columns ∧ dictContains o.attrs a = true := by
  simp [keys, List.mem_filter]

/-- The lookup succeeds on every name the keys output selects. -/
lemma isSome_of_mem_keys {α : Type} (o : Obj α) (a : String) (h : a ∈ keys o) :
    (dictGet o.attrs a).isSome := by
  rw [← dictContains_eq_isSome]
  exact ((mem_keys_iff o a).mp h).2

/-- The keys and values outputs always have the same length. -/
lemma length_values_eq_length_keys {α : Type} (o : Obj α) :
    (values o).length = (keys o).length := by
  rw [values_eq_filterMap_keys]
  exact length_filterMap_of_isSome _ _ (fun a ha => isSome_of_mem_keys o a ha)

/-- Claim C1: on the worked example, values yields the two set attribute
values; but the final keys yields the list of names rather than the
display string the claim states, so the statement save builds interpolates
the textual form of that list instead of bare column names.  The claimed
display string and the claimed statement text are exactly what the
intermediate keys and its composition with save produce. -/
theorem save_example_eval :
    values user = [("bob"), ("3/5/1997")]
    ∧ keys user = [("name"), ("birthday")]
    ∧ keysJoin user = ("name, birthday")
    ∧ insert_str user = ("INSERT INTO users ([\x27name\x27, \x27birthday\x27]) VALUES (%s, %s);")
    ∧ insert_str_joined user = ("INSERT INTO users (name, birthday) VALUES (%s, %s);")
    ∧ save user = [DBAction.execute (insert_str user) [("bob"), ("3/5/1997")], DBAction.commit] := by
  refine ⟨rfl, rfl, ?_, ?_, ?_, rfl⟩ <;> decide

/-- Removing the entry of one key leaves the dictionary without that
key. -/
lemma dictContains_removeAttr_self {α : Type} (d : List (String × α)) (c : String) :
    dictContains (removeAttr d c) c = false := by
  induction d with
  | nil => rfl
  | cons p rest ih =>
      by_cases hpc : p.1 = c <;> simp [removeAttr, dictContains, hpc, ih]

/-- Removing the entry of one key leaves membership of every other name
unchanged. -/
lemma dictContains_removeAttr_ne {α : Type} (d : List (String × α)) (c a : String)
    (hac : a ≠ c) : dictContains (removeAttr d c) a = dictContains d a := by
  induction d with
  | nil => rfl
  | cons p rest ih =>
      by_cases hpc : p.1 = c
      · have hpa : (p.1 == a) = false := by
          simp only [beq_eq_false_iff_ne]
          intro h
          exact hac (by rw [← h, hpc])
        have hca : ¬(c = a) := fun h => hac h.symm
        simp [removeAttr, dictContains, hpc, hpa, hca, ih]
      · simp [removeAttr, dictContains, hpc, ih]

/-- Removing the entry of one key makes the dictionary contain a name
exactly when it differs from that key and was contained before. -/
lemma dictContains_removeAttr {α : Type} (d : List (String × α)) (c a : String) :
    dictContains (removeAttr d c) a = (!(a == c) && dictContains d a) := by
  by_cases hac : a = c
  · subst hac
    simp [dictContains_removeAttr_self]
  · simp [dictContains_removeAttr_ne d c a hac, hac]

/-- Removing the entry of one key leaves the lookup of every other name
unchanged. -/
lemma dictGet_removeAttr {α : Type} (d : List (String × α)) (c a : String)
    (hac : a ≠ c) : dictGet (removeAttr d c) a = dictGet d a := by
  induction d with
  | nil => rfl
  | cons p rest ih =>
      by_cases hpc : p.1 = c
      · have hpa : (p.1 == a) = false := by
          simp only [beq_eq_false_iff_ne]
          intro h
          exact hac (by rw [← h, hpc])
        have hca : ¬(c = a) := fun h => hac h.symm
        simp [removeAttr, dictGet, hpc, hpa, hca, ih]
      · simp [removeAttr, dictGet, hpc, ih]

/-- Removing one attribute filters exactly the entries of that name out
of the keys output. -/
lemma keys_removeAttr {α : Type} (o : Obj α) (c : String) :
    keys (Obj.mk o.table o.columns (removeAttr o.attrs c))
      = (keys o).filter (fun a => !(a == c)) := by
  unfold keys
  rw [List.filter_filter]
  apply List.filter_congr
  intro a _
  rw [dictContains_removeAttr]

/-- Claim C2: the final definition of keys yields the list of matching
column names on the worked example, while the claimed display string is
what the intermediate definition yields; in general the intermediate
definition is the comma-join of the final one, so the two select the same
columns. -/
theorem keys_display_eval :
    keys user = [("name"), ("birthday")]
    ∧ keysJoin user = ("name, birthday")
    ∧ (∀ o : Obj String, keysJoin o = String.intercalate (", ") (keys o)) := by
  exact ⟨rfl, by decide, fun o => rfl⟩

/-- Claim C3: when every declared column has a matching attribute, the
keys output is the whole column list, the values output has the same
length, and position by position the values output is the dictionary
lookup of the keys output. -/
theorem keys_values_aligned {α : Type} (o : Obj α)
    (h : ∀ c ∈ o.columns, dictContains o.attrs c = true) :
    keys o = o.columns
    ∧ (values o).length = (keys o).length
    ∧ values o = (keys o).filterMap (dictGet o.attrs) := by
  refine ⟨?_, length_values_eq_length_keys o, values_eq_filterMap_keys o⟩
  exact List.filter_eq_self.mpr h

/-- Claim C3 witness: the alignment at the fully populated example. -/
theorem keys_values_aligned_witness :
    keys fullUser = fullUser.columns
    ∧ (values fullUser).length = (keys fullUser).length
    ∧ values fullUser = (keys fullUser).filterMap (dictGet fullUser.attrs) :=
  keys_values_aligned fullUser (by decide)

/-- Claim C4: removing the attribute of a declared column removes exactly
the entries of that name from the keys output, the values output stays
the lookup in the original dictionary of the remaining keys position by
position, and the two outputs keep equal length. -/
theorem remove_column_alignment {α : Type} (o : Obj α) (c : String)
    (_hc : c ∈ o.columns) :
    keys (Obj.mk o.table o.columns (removeAttr o.attrs c))
      = (keys o).filter (fun a => !(a == c))
    ∧ values (Obj.mk o.table o.columns (removeAttr o.attrs c))
      = (keys (Obj.mk o.table o.columns (removeAttr o.attrs c))).filterMap (dictGet o.attrs)
    ∧ (values (Obj.mk o.table o.columns (removeAttr o.attrs c))).length
      = (keys (Obj.mk o.table o.columns (removeAttr o.attrs c))).length := by
  refine ⟨keys_removeAttr o c, ?_, length_values_eq_length_keys _⟩
  rw [values_eq_filterMap_keys]
  apply List.filterMap_congr
  intro a ha
  have hne : a ≠ c := by
    have := ((mem_keys_iff _ a).mp ha).2
    rw [show (Obj.mk o.table o.columns (removeAttr o.attrs c)).attrs
          = removeAttr o.attrs c from rfl, dictContains_removeAttr] at this
    intro hac
    simp [hac] at this
  exact dictGet_removeAttr o.attrs c a hne

/-- Claim C4 witness: removing the name attribute on the worked example. -/
theorem remove_column_alignment_witness :
    keys (Obj.mk user.table user.columns (removeAttr user.attrs ("name")))
      = (keys user).filter (fun a => !(a == ("name")))
    ∧ values (Obj.mk user.table user.columns (removeAttr user.attrs ("name")))
      = (keys (Obj.mk user.table user.columns (removeAttr user.attrs ("name")))).filterMap
          (dictGet user.attrs)
    ∧ (values (Obj.mk user.table user.columns (removeAttr user.attrs ("name")))).length
      = (keys (Obj.mk user.table user.columns (removeAttr user.attrs ("name")))).length :=
  remove_column_alignment user ("name") (by decide)

/-- Claim C5: the keys output is a sublist of the declared columns hence
in declared order, a name is selected exactly when it is a declared
column present in the attribute dictionary, the values output is the
lookup of the keys output, a missing column is omitted with no error (the
functions are total), and an attribute whose name is not declared has no
effect: removing it changes neither output. -/
theorem keys_values_exact_subset {α : Type} (o : Obj α) (a k : String)
    (hk : k ∉ o.columns) :
    (keys o).Sublist o.columns
    ∧ (a ∈ keys o ↔ a ∈ o.columns ∧ dictContains o.attrs a = true)
    ∧ values o = (keys o).filterMap (dictGet o.attrs)
    ∧ keys (Obj.mk o.table o.columns (removeAttr o.attrs k)) = keys o
    ∧ values (Obj.mk o.table o.columns (removeAttr o.attrs k)) = values o := by
  have hne : ∀ b ∈ o.columns, b ≠ k := fun b hb hbk => hk (hbk ▸ hb)
  refine ⟨List.filter_sublist o.columns, mem_keys_iff o a,
    values_eq_filterMap_keys o, ?_, ?_⟩
  · unfold keys
    apply List.filter_congr
    intro b hb
    rw [show (Obj.mk o.table o.columns (removeAttr o.attrs k)).attrs
          = removeAttr o.attrs k from rfl, dictContains_removeAttr]
    simp [hne b hb]
  · unfold values
    apply List.filterMap_congr
    intro b hb
    rw [show (Obj.mk o.table o.columns (removeAttr o.attrs k)).attrs
          = removeAttr o.attrs k from rfl, dictContains_removeAttr,
        dictGet_removeAttr o.attrs k b (hne b hb)]
    simp [hne b hb]

/-- Claim C5 witness: the characterization at the worked example, with
the undeclared attribute name email. -/
theorem keys_values_exact_subset_witness :
    (keys user).Sublist user.columns
    ∧ (("name") ∈ keys user ↔ ("name") ∈ user.columns
        ∧ dictContains user.attrs ("name") = true)
    ∧ values user = (keys user).filterMap (dictGet user.attrs)
    ∧ keys (Obj.mk user.table user.columns (removeAttr user.attrs ("email"))) = keys user
    ∧ values (Obj.mk user.table user.columns (removeAttr user.attrs ("email"))) = values user :=
  keys_values_exact_subset user ("name") ("email") (by decide)

/-- Claim C6: on the worked example, the statement save builds starts
from the table name, carries as many placeholders as the values output is
long, binds those values positionally and is followed by a commit; its
column section however is the textual form of the keys list, not the bare
comma-separated column names the claim states, which is what the
composition with the intermediate keys produces. -/
theorem save_sql_shape_eval :
    insert_str user = ("INSERT INTO users ([\x27name\x27, \x27birthday\x27]) VALUES (%s, %s);")
    ∧ s_str user = ("%s, %s")
    ∧ (values user).length = 2
    ∧ save user = [DBAction.execute (insert_str user) (values user), DBAction.commit]
    ∧ insert_str_joined user = ("INSERT INTO users (name, birthday) VALUES (%s, %s);") := by
  refine ⟨?_, ?_, rfl, rfl, ?_⟩ <;> decide

/-- Claim C7: save issues exactly one execute of the built INSERT
statement with the values bound, then one commit, with no rollback; when
the driver raises on execute, the error propagates unmodified and the
commit does not run, and on success the trace is exactly the two calls. -/
theorem save_single_insert_commit {α ε : Type} (o : Obj α) (e : ε) :
    save o = [DBAction.execute (insert_str o) (values o), DBAction.commit]
    ∧ (save o).countP isExec = 1
    ∧ (save o).countP isRollback = 0
    ∧ saveWith o (Except.error e)
        = ([DBAction.execute (insert_str o) (values o)], Except.error e)
    ∧ saveWith o (Except.ok () : Except ε Unit) = (save o, Except.ok ()) := by
  exact ⟨rfl, rfl, rfl, rfl, rfl⟩

/-- Claim C8: calling save twice with the same unchanged object issues
two execute calls with the identical statement text and identical bound
values, each followed by its commit. -/
theorem save_twice_two_inserts {α : Type} (o : Obj α) :
    saveTwice o = [DBAction.execute (insert_str o) (values o), DBAction.commit,
      DBAction.execute (insert_str o) (values o), DBAction.commit]
    ∧ (saveTwice o).countP isExec = 2 := by
  exact ⟨rfl, rfl⟩

/-- Claim C9: keys and values are pure and read only the column list and
the attribute dictionary: two objects agreeing on those two fields get
equal outputs, whatever their table names. -/
theorem keys_values_readonly {α : Type} (o₁ o₂ : Obj α)
    (hc : o₁.columns = o₂.columns) (ha : o₁.attrs = o₂.attrs) :
    keys o₁ = keys o₂ ∧ values o₁ = values o₂ := by
  obtain ⟨t₁, c₁, a₁⟩ := o₁
  obtain ⟨t₂, c₂, a₂⟩ := o₂
  cases hc
  cases ha
  exact ⟨rfl, rfl⟩

/-- Claim C9 witness: the worked example and its copy under another table
name produce the same outputs. -/
theorem keys_values_readonly_witness :
    keys user = keys userRenamed ∧ values user = values userRenamed :=
  keys_values_readonly user userRenamed rfl rfl

/-- Claim C10: on an instance with no attribute set, save raises nothing
while building the statement: keys and values are empty, the placeholder
string is empty, and the degenerate statement is executed with no
parameters and committed; its column section is the textual form of the
empty list, not the empty parentheses the claim states, which is what the
composition with the intermediate keys produces. -/
theorem save_empty_eval :
    keys emptyUser = []
    ∧ values emptyUser = []
    ∧ s_str emptyUser = ("")
    ∧ insert_str emptyUser = ("INSERT INTO users ([]) VALUES ();")
    ∧ insert_str_joined emptyUser = ("INSERT INTO users () VALUES ();")
    ∧ save emptyUser
        = [DBAction.execute (("INSERT INTO users ([]) VALUES ();")) [], DBAction.commit] := by
  refine ⟨rfl, rfl, ?_, ?_, ?_, ?_⟩ <;> decide

end SetupOrm
